import Mathlib

/-!
Verification development for the axe-linter-action repository.

The embedding follows `src/git.ts`, `src/linter.ts` and `src/run.ts`:
pure data flow is modelled as Lean functions, and the side effects of the
lint orchestrator (file reads, HTTP posts, CI annotations, summary
rendering, debug logging) are modelled as an explicit event trace returned
alongside the result.  External collaborators (the GitHub file-listing
API, the file system, the HTTP layer) are modelled as an environment the
functions consume.
-/

/-! ## ChangeSet resolver (`src/git.ts`) -/

/-- Change status of a file as reported by the GitHub comparison APIs. -/
inductive FileStatus where
  | added
  | modified
  | renamed
  | changed
  | removed
deriving DecidableEq, Repr

/-- A file of the comparison response: `{ filename, status }`. -/
structure ChangedFile where
  filename : String
  status : FileStatus
deriving DecidableEq, Repr

/-- Split a character list into path segments at `/` characters. -/
def splitSegs : List Char → List (List Char)
  | [] => [[]]
  | c :: rest =>
    match splitSegs rest with
    | s :: ss => if c = '/' then [] :: s :: ss else (c :: s) :: ss
    | [] => [[c]]

/-- A segment does not begin with a dot (minimatch's default `dot: false`
rule: `*` and `**` do not match names that start with `.`). -/
def noDotHead (seg : List Char) : Bool :=
  !(seg.head? == some '.')

/-- Match a glob segment of the shape `*<lit>` against one path segment:
the segment must not begin with `.` and must end with the literal. -/
def segMatchStar (lit seg : List Char) : Bool :=
  noDotHead seg && lit.isSuffixOf seg

/-- Embedding of the `minimatch` library call in `src/git.ts`, restricted
to the pattern shape `**/*<ext>` that `FILE_PATTERNS` uses: `**` matches
any number of leading path segments (none beginning with `.`) and
`*<ext>` matches the final segment.  minimatch is case-sensitive by
default (`nocase: false`), which this embedding preserves. -/
def minimatch (path pattern : String) : Bool :=
  if ("**/*".data).isPrefixOf pattern.data then
    let lit := pattern.data.drop 4
    let segs := splitSegs path.data
    (segs.dropLast.all noDotHead) &&
      (match segs.getLast? with
       | some last => segMatchStar lit last
       | none => false)
  else
    path == pattern

/-- The allow-list of extension globs from `src/git.ts`. -/
def FILE_PATTERNS : List String :=
  ["**/*.js", "**/*.jsx", "**/*.tsx", "**/*.esm", "**/*.html",
   "**/*.htm", "**/*.vue", "**/*.md", "**/*.markdown"]

/-- The filter-and-map applied to the pull-request file list
(`src/git.ts`, `getChangedFiles`, pull-request branch): keep a file iff
some pattern of `FILE_PATTERNS` matches its filename. -/
def getChangedFiles_pr (files : List ChangedFile) : List String :=
  (files.filter (fun file => FILE_PATTERNS.any (fun pattern => minimatch file.filename pattern))).map
    (fun file => file.filename)

/-- The push branch of `getChangedFiles`: `response.data.files` may be
absent (`undefined`), in which case the result is the empty list. -/
def getChangedFiles_push (files : Option (List ChangedFile)) : List String :=
  match files with
  | some fs => getChangedFiles_pr fs
  | none => []

/-! ## Pluralization (`src/utils.ts`, `src/run.ts`) -/

/-- Modelled from the spec: `pluralize` from `src/utils.ts`, whose
implementation file is absent from the sources (only its test
`src/utils.test.ts` and its callers in `src/linter.ts` and `src/run.ts`
are present).  Spec: total = 1 is singular, every other count — 0,
negative and large counts included — is plural; the test asserts
`pluralize(1) = ''` and `pluralize(2) = 's'`. -/
def pluralize (count : Int) : String :=
  if count == 1 then "" else "s"

/-- The summary footer text of `src/linter.ts`:
`Found ${totalErrors} accessibility issue${pluralize(totalErrors)}`. -/
def sumFooterLine (n : Int) : String :=
  "Found " ++ toString n ++ " accessibility issue" ++ pluralize n

/-- The debug line of `src/linter.ts`:
`Found ${totalErrors} error${pluralize(totalErrors)}`. -/
def debugFoundLine (n : Int) : String :=
  "Found " ++ toString n ++ " error" ++ pluralize n

/-- The run-failure message of `src/run.ts`:
`Found ${errorCount} accessibility issue${errorCount === 1 ? '' : 's'}`. -/
def runFailMessage (n : Int) : String :=
  "Found " ++ toString n ++ " accessibility issue" ++ (if n == 1 then "" else "s")

/-! ## JSON values (the opaque linter configuration) -/

/-- A JSON value, used for the `linterConfig` object that `lintFiles`
passes through opaquely into every request body. -/
inductive Json where
  | null
  | bool (b : Bool)
  | num (n : Int)
  | str (s : String)
  | arr (elems : List Json)
  | obj (fields : List (String × Json))

/-- Escape one character for a JSON string literal (the characters that
occur in this development; `JSON.stringify` agrees on all of them). -/
def escapeJsonChar (c : Char) : String :=
  if c = '"' then "\\\""
  else if c = '\\' then "\\\\"
  else if c = '\n' then "\\n"
  else if c = '\t' then "\\t"
  else if c = '\r' then "\\r"
  else String.mk [c]

/-- Serialize a JSON string literal. -/
def serializeJsonString (s : String) : String :=
  "\"" ++ String.join (s.data.map escapeJsonChar) ++ "\""

mutual

/-- Serialization of a JSON value, modelling `JSON.stringify` (object
fields in insertion order, no added whitespace). -/
def serializeJson : Json → String
  | .null => "null"
  | .bool b => if b then "true" else "false"
  | .num n => toString n
  | .str s => serializeJsonString s
  | .arr elems => "[" ++ serializeJsonElems elems ++ "]"
  | .obj fields => "\x7b" ++ serializeJsonFields fields ++ "\x7d"

/-- Comma-separated serialization of array elements. -/
def serializeJsonElems : List Json → String
  | [] => ""
  | [x] => serializeJson x
  | x :: y :: rest => serializeJson x ++ "," ++ serializeJsonElems (y :: rest)

/-- Comma-separated serialization of object fields. -/
def serializeJsonFields : List (String × Json) → String
  | [] => ""
  | [(k, v)] => serializeJsonString k ++ ":" ++ serializeJson v
  | (k, v) :: y :: rest =>
    serializeJsonString k ++ ":" ++ serializeJson v ++ "," ++ serializeJsonFields (y :: rest)

end

/-! ## Lint orchestrator data model (`src/types.ts`, `src/linter.ts`) -/

/-- A finding of the remote service (`LinterError` of `src/types.ts`).
`helpURL` models the optional field of the wire format; `src/linter.ts`
never reads it. -/
structure LinterError where
  ruleId : String
  lineNumber : Nat
  column : Nat
  endColumn : Nat
  description : String
  helpURL : Option String
deriving DecidableEq, Repr

/-- `LinterReport` of `src/types.ts`: `{ errors: LinterError[] }`. -/
structure LinterReport where
  errors : List LinterError
deriving DecidableEq, Repr

/-- A parsed response body.  Both fields model possibly-absent JS object
properties: `LinterResponse` of `src/types.ts` declares `error?: string`
and `report: LinterReport`, but a body may lack `report` at runtime
(`Option` captures `undefined`). -/
structure ParsedBody where
  error : Option String
  report : Option LinterReport
deriving DecidableEq, Repr

/-- The per-error record `src/linter.ts` builds into `fileErrors`
(`ErrorDetail`): `line` is the finding's `lineNumber` and `message` is
`${ruleId} - ${description}`. -/
structure ErrorDetail where
  line : Nat
  column : Nat
  endColumn : Nat
  message : String
  ruleId : String
  description : String
deriving DecidableEq, Repr

/-- A thrown JS value: `jsError` models `new Error(msg)` thrown by
`src/linter.ts` itself or by a collaborator, `typeError` the TypeError
raised by reading a property of `undefined`. -/
inductive JsErr where
  | jsError (msg : String)
  | typeError (msg : String)
deriving DecidableEq, Repr

/-- Result of `readFileSync(file, 'utf8')`. -/
inductive ReadResult where
  | readOk (contents : String)
  | readErr (e : JsErr)
deriving DecidableEq, Repr

/-- Result of `response.json()`. -/
inductive JsonResult where
  | jsonOk (body : ParsedBody)
  | jsonErr (e : JsErr)
deriving DecidableEq, Repr

/-- The observable parts of a `node-fetch` response used by
`src/linter.ts`: `ok`, `status`, the `content-type` header (possibly
absent) and the parsed JSON body. -/
structure Response where
  ok : Bool
  status : Nat
  contentType : Option String
  json : JsonResult
deriving DecidableEq, Repr

/-- Outcome of `fetch`: a transport-level rejection or a response. -/
inductive HttpResult where
  | reject (e : JsErr)
  | resp (r : Response)
deriving DecidableEq, Repr

/-- What the environment holds for one file name: the result of reading
it and the result of posting it. -/
structure FileEnv where
  read : ReadResult
  http : HttpResult
deriving DecidableEq, Repr

/-- The environment of one `lintFiles` run. -/
def Env : Type := String → FileEnv

/-- The JSON request body `{ source, filename, config }` of
`src/linter.ts`. -/
structure RequestBody where
  source : String
  filename : String
  config : Json

/-- The annotation properties `src/linter.ts` passes to `core.error`:
`{ file, startLine, startColumn, endColumn, title }` (no end line). -/
structure AnnotProps where
  file : String
  startLine : Nat
  startColumn : Nat
  endColumn : Nat
  title : String
deriving DecidableEq, Repr

/-- Annotation severity of the CI surface (`core.error` / `core.warning`). -/
inductive Severity where
  | error
  | warning
deriving DecidableEq, Repr

/-- One observable side effect of `lintFiles`, in emission order. -/
inductive Event where
  | fileRead (file : String)
  | debug (msg : String)
  | fetchPost (url : String) (authorization : String) (body : RequestBody)
  | annot (sev : Severity) (msg : String) (props : AnnotProps)
  | sumHeading (text : String) (level : Nat)
  | sumBreak
  | sumList (items : List String)
  | sumRaw (text : String)
  | sumWrite

/-- JS whitespace characters relevant to `String.prototype.trim` (the
ASCII subset; the sources never hit the Unicode cases). -/
def isJsSpace (c : Char) : Bool :=
  c == ' ' || c == '\t' || c == '\n' || c == '\r' || c == '\x0b' || c == '\x0c'

/-- Embedding of `fileContents.trim()`. -/
def jsTrim (s : String) : String :=
  String.mk (((s.data.dropWhile isJsSpace).reverse.dropWhile isJsSpace).reverse)

/-- Assignment `m[k] = v` on a JS string-keyed record: replaces the value
of an existing key in place, otherwise appends the pair (JS objects keep
string keys in insertion order). -/
def recordSet (m : List (String × List ErrorDetail)) (k : String) (v : List ErrorDetail) :
    List (String × List ErrorDetail) :=
  match m with
  | [] => [(k, v)]
  | (k0, v0) :: rest => if k0 == k then (k0, v) :: rest else (k0, v0) :: recordSet rest k v

/-- Outcome of the loop body of `lintFiles` for one file: an exception,
a skip (empty file), or the reported findings. -/
inductive FileStep where
  | failed (e : JsErr)
  | skipped
  | linted (errors : List LinterError)
deriving DecidableEq, Repr

/-- Substring containment on character lists, as
`String.prototype.includes`. -/
def strIncludes : List Char → List Char → Bool
  | needle, [] => needle.isEmpty
  | needle, c :: rest => needle.isPrefixOf (c :: rest) || strIncludes needle rest

/-- `contentType?.includes('application/json')` is truthy. -/
def ctIncludesJson (ct : Option String) : Bool :=
  match ct with
  | none => false
  | some s => strIncludes ("application/json".data) s.data

/-- `const errors = result.report.errors` on a parsed body: reading
`errors` of an absent `report` raises a TypeError; otherwise the step
succeeds with the report's findings. -/
def reportStep (result : ParsedBody) : FileStep :=
  match result.report with
  | none => .failed (.typeError "Cannot read properties of undefined (reading 'errors')")
  | some report => .linted report.errors

/-- The response validation of `src/linter.ts`, in source order: non-ok
status throws `HTTP error! status: <status>`; a content type that does
not include `application/json` throws `Invalid content type`; a JSON
parse failure propagates; a truthy `error` field throws it verbatim;
otherwise `report.errors` is read. -/
def responseStep : HttpResult → FileStep
  | .reject e => .failed e
  | .resp r =>
    if !r.ok then
      .failed (.jsError ("HTTP error! status: " ++ toString r.status))
    else if !(ctIncludesJson r.contentType) then
      .failed (.jsError "Invalid content type")
    else
      match r.json with
      | .jsonErr e => .failed e
      | .jsonOk result =>
        match result.error with
        | some s => if s == "" then reportStep result else .failed (.jsError s)
        | none => reportStep result

/-- The body of the `for (const file of files)` loop of `src/linter.ts`,
for one file: read, skip-if-empty, post, validate, parse.  Returns the
events emitted for this file and the step outcome. -/
def processFile (env : Env) (apiKey axeLinterUrl : String) (linterConfig : Json)
    (file : String) : List Event × FileStep :=
  match (env file).read with
  | .readErr e => ([Event.fileRead file], .failed e)
  | .readOk fileContents =>
    if jsTrim fileContents == "" then
      ([Event.fileRead file, Event.debug ("Skipping empty file " ++ file)], .skipped)
    else
      ([Event.fileRead file,
        Event.fetchPost (axeLinterUrl ++ "/lint-source") apiKey
          { source := fileContents, filename := file, config := linterConfig }],
       responseStep (env file).http)

/-- The step outcome of `processFile` alone. -/
def stepOf (env : Env) (apiKey axeLinterUrl : String) (linterConfig : Json)
    (file : String) : FileStep :=
  (processFile env apiKey axeLinterUrl linterConfig file).2

/-- Does a step abort the run? -/
def stepFails : FileStep → Bool
  | .failed _ => true
  | _ => false

/-- The `ErrorDetail` list `src/linter.ts` builds from a response's
findings (`errors.map(...)`). -/
def detailsOf (errors : List LinterError) : List ErrorDetail :=
  errors.map (fun er =>
    { line := er.lineNumber, column := er.column, endColumn := er.endColumn,
      message := er.ruleId ++ " - " ++ er.description,
      ruleId := er.ruleId, description := er.description })

/-- The file loop of `lintFiles`: threads `totalErrors` and `fileErrors`
through the files, returns the events in emission order and, on the
first exception, stops with it. -/
def lintLoop (env : Env) (apiKey axeLinterUrl : String) (linterConfig : Json) :
    List String → Nat → List (String × List ErrorDetail) →
    List Event × Nat × List (String × List ErrorDetail) × Option JsErr
  | [], totalErrors, fileErrors => ([], totalErrors, fileErrors, none)
  | file :: rest, totalErrors, fileErrors =>
    match processFile env apiKey axeLinterUrl linterConfig file with
    | (evs, .failed e) => (evs, totalErrors, fileErrors, some e)
    | (evs, .skipped) =>
      match lintLoop env apiKey axeLinterUrl linterConfig rest totalErrors fileErrors with
      | (revs, t, fe, errOpt) => (evs ++ revs, t, fe, errOpt)
    | (evs, .linted errors) =>
      let totalAfter := totalErrors + errors.length
      let feAfter :=
        if errors.length > 0 then recordSet fileErrors file (detailsOf errors) else fileErrors
      match lintLoop env apiKey axeLinterUrl linterConfig rest totalAfter feAfter with
      | (revs, t, fe, errOpt) => (evs ++ revs, t, fe, errOpt)

/-- Summary list entry: `Line ${line}: ${ruleId} - ${description}`. -/
def detailLineText (e : ErrorDetail) : String :=
  "Line " ++ toString e.line ++ ": " ++ e.ruleId ++ " - " ++ e.description

/-- The `core.error` call of `src/linter.ts` for one stored detail:
message `${ruleId} - ${description}`, properties `{ file, startLine,
startColumn, endColumn, title: 'Axe Linter' }`. -/
def annotFor (file : String) (e : ErrorDetail) : Event :=
  Event.annot Severity.error (e.ruleId ++ " - " ++ e.description)
    { file := file, startLine := e.line, startColumn := e.column,
      endColumn := e.endColumn, title := "Axe Linter" }

/-- The summary section and annotations for one `fileErrors` entry. -/
def fileSection (file : String) (errors : List ErrorDetail) : List Event :=
  if errors.length > 0 then
    [Event.sumHeading ("Errors in " ++ file ++ ":") 3,
     Event.sumList (errors.map detailLineText),
     Event.sumBreak]
    ++ errors.map (annotFor file)
  else []

/-- Everything `src/linter.ts` emits after the file loop: the summary
heading, the per-file sections with their annotations, the footer, the
summary write, and the debug line. -/
def summaryEvents (fileErrors : List (String × List ErrorDetail)) (totalErrors : Nat) :
    List Event :=
  [Event.sumHeading "Accessibility Linting Results" 1, Event.sumBreak]
  ++ (fileErrors.map (fun p => fileSection p.1 p.2)).flatten
  ++ [Event.sumBreak, Event.sumRaw (sumFooterLine (totalErrors : Int)), Event.sumWrite,
      Event.debug (debugFoundLine (totalErrors : Int))]

/-- `lintFiles(files, apiKey, axeLinterUrl, linterConfig)` of
`src/linter.ts`: returns the event trace and either the thrown value or
the total error count. -/
def lintFiles (env : Env) (files : List String) (apiKey axeLinterUrl : String)
    (linterConfig : Json) : List Event × Except JsErr Nat :=
  match lintLoop env apiKey axeLinterUrl linterConfig files 0 [] with
  | (evs, _, _, some e) => (evs, Except.error e)
  | (evs, total, fileErrors, none) =>
    (evs ++ summaryEvents fileErrors total, Except.ok total)

/-- The messages of the annotation events of a trace. -/
def annotMessages (evs : List Event) : List String :=
  evs.filterMap (fun ev =>
    match ev with
    | Event.annot _ msg _ => some msg
    | _ => none)

/-! ## Event classification and derived views -/

def isFetchEvent : Event → Bool
  | .fetchPost _ _ _ => true
  | _ => false
def isAnnotEvent : Event → Bool
  | .annot _ _ _ => true
  | _ => false
def isMainHeading : Event → Bool
  | .sumHeading text level => text == "Accessibility Linting Results" && level == 1
  | _ => false
def isSumWrite : Event → Bool
  | .sumWrite => true
  | _ => false
def isSumRaw : Event → Bool
  | .sumRaw _ => true
  | _ => false

/-- The annotation events of a trace. -/
def annotEvents (evs : List Event) : List Event :=
  evs.filter isAnnotEvent

/-- The findings the remote service reported for one file (empty when
the file was skipped or its step failed). -/
def reportedErrors (env : Env) (k u : String) (cfg : Json) (f : String) :
    List LinterError :=
  match stepOf env k u cfg f with
  | .linted errs => errs
  | _ => []

/-- The `fileErrors` mapping selection applied to one file. -/
def fileErrorsEntry (env : Env) (k u : String) (cfg : Json) (f : String) :
    Option (String × List ErrorDetail) :=
  match stepOf env k u cfg f with
  | .linted errs => if errs.length > 0 then some (f, detailsOf errs) else none
  | _ => none

/-! ## Concrete environments for evaluation -/

/-- A well-formed JSON 200 response with the given body fields. -/
def jsonResp (err : Option String) (rep : Option LinterReport) : HttpResult :=
  .resp { ok := true, status := 200, contentType := some "application/json",
          json := .jsonOk { error := err, report := rep } }

/-- A sample finding, with a help URL present on the wire. -/
def wErr1 : LinterError :=
  { ruleId := "test-rule-1", lineNumber := 1, column := 1, endColumn := 10,
    description := "Test error 1", helpURL := some "https://test-help-url-1.com" }

/-- A sample environment: one file with one finding, a whitespace-only
file, a file whose response reports `API Error`, and a file whose
response body is `{"error": ""}` with no report. -/
def wEnv : Env := fun f =>
  if f == "test.js" then
    { read := .readOk "<div>test</div>", http := jsonResp none (some { errors := [wErr1] }) }
  else if f == "empty.js" then
    { read := .readOk "   ", http := jsonResp none (some { errors := [] }) }
  else if f == "error.js" then
    { read := .readOk "<h1>x</h1>", http := jsonResp (some "API Error") none }
  else if f == "bad.js" then
    { read := .readOk "<p>x</p>", http := jsonResp (some "") none }
  else
    { read := .readOk "<span>ok</span>", http := jsonResp none (some { errors := [] }) }

/-! ## String facts used for the pluralization claim -/

lemma string_data_append (a b : String) : (a ++ b).data = a.data ++ b.data := by
  cases a; cases b; rfl

lemma string_eq_iff_data (a b : String) : a = b ↔ a.data = b.data := by
  constructor
  · intro h; rw [h]
  · intro h; cases a; cases b; exact congrArg String.mk h

/-! ## The claims -/

/-- Claim C1 (the code, evaluated at the failing input): `getChangedFiles`
applies no status filter, so files with status `removed` are retained
whenever their extension matches, in both the pull-request and the push
variant — the repository's own test
(`git.test.ts`, `should exclude deleted files`) expects them excluded. -/
theorem c1_removed_files_retained :
    getChangedFiles_pr
      [⟨"test.js", .added⟩, ⟨"removed.js", .removed⟩, ⟨"modified.jsx", .modified⟩,
       ⟨"deleted.md", .removed⟩, ⟨"test.tsx", .added⟩]
      = ["test.js", "removed.js", "modified.jsx", "deleted.md", "test.tsx"] ∧
    getChangedFiles_push
      (some [⟨"test.vue", .added⟩, ⟨"deleted.js", .removed⟩, ⟨"test.html", .modified⟩,
             ⟨"removed.md", .removed⟩])
      = ["test.vue", "deleted.js", "test.html", "removed.md"] := by
  decide

/-- Claim C4 (the code, evaluated at the failing input): pattern matching
in `getChangedFiles` is depth-independent and excludes unsupported
extensions, missing extensions and trailing dots, but it is
case-sensitive: `test.JSX` is dropped, although the claim (and the
repository's own `should handle case insensitive matching` test) retains
it. -/
theorem c4_matching_is_case_sensitive :
    getChangedFiles_pr
      [⟨"test.JSX", .added⟩, ⟨"a/b/c/page.html", .modified⟩, ⟨"deep/path/app.vue", .added⟩,
       ⟨"test.css", .modified⟩, ⟨"test.py", .added⟩, ⟨"test.rb", .added⟩, ⟨"test.cpp", .added⟩,
       ⟨"README", .added⟩, ⟨"test.", .added⟩, ⟨"test.js", .added⟩]
      = ["a/b/c/page.html", "deep/path/app.vue", "test.js"] := by
  decide

/-- Claim C5: in the summary footer, the debug line and the run-failure
message, the singular form is used exactly for the count 1; the count 0,
negative counts and all larger counts use the plural form. -/
theorem c5_pluralization (n : Int) :
    (pluralize n = "" ↔ n = 1) ∧
    (sumFooterLine n = "Found " ++ toString n ++ " accessibility issue" ↔ n = 1) ∧
    (sumFooterLine n = "Found " ++ toString n ++ " accessibility issues" ↔ n ≠ 1) ∧
    (debugFoundLine n = "Found " ++ toString n ++ " error" ↔ n = 1) ∧
    (debugFoundLine n = "Found " ++ toString n ++ " errors" ↔ n ≠ 1) ∧
    runFailMessage n = sumFooterLine n := by
  by_cases h : n = 1
  · subst h
    refine ⟨by simp [pluralize], ?_, ?_, ?_, ?_, rfl⟩ <;>
      simp [sumFooterLine, debugFoundLine, pluralize, string_eq_iff_data, string_data_append]
  · have hb : (n == 1) = false := by simpa using h
    refine ⟨by simp [pluralize, hb, h], ?_, ?_, ?_, ?_, ?_⟩ <;>
      simp [sumFooterLine, debugFoundLine, runFailMessage, pluralize, hb, h,
        string_eq_iff_data, string_data_append]

/-! ## Trace lemmas for the lint orchestrator -/

lemma processFile_events_eq (env : Env) (k u : String) (cfg : Json) (f : String) :
    (processFile env k u cfg f).1 =
      match (env f).read with
      | .readErr _ => [Event.fileRead f]
      | .readOk contents =>
        if jsTrim contents == "" then
          [Event.fileRead f, Event.debug ("Skipping empty file " ++ f)]
        else
          [Event.fileRead f,
           Event.fetchPost (u ++ "/lint-source") k
             { source := contents, filename := f, config := cfg }] := by
  unfold processFile
  cases hr : (env f).read with
  | readErr e => rfl
  | readOk contents =>
    by_cases ht : (jsTrim contents == "") = true
    · simp [ht]
    · simp [ht]

lemma mem_processFile_events (env : Env) (k u : String) (cfg : Json) (f : String)
    (ev : Event) (h : ev ∈ (processFile env k u cfg f).1) :
    ev = Event.fileRead f ∨ ev = Event.debug ("Skipping empty file " ++ f) ∨
      ∃ contents, (env f).read = ReadResult.readOk contents ∧
        ev = Event.fetchPost (u ++ "/lint-source") k
          { source := contents, filename := f, config := cfg } := by
  rw [processFile_events_eq] at h
  cases hr : (env f).read with
  | readErr e => rw [hr] at h; simp at h; simp [h]
  | readOk contents =>
    rw [hr] at h
    by_cases ht : (jsTrim contents == "") = true
    · simp [ht] at h
      rcases h with h | h <;> simp [h]
    · simp [ht] at h
      rcases h with h | h
      · simp [h]
      · exact Or.inr (Or.inr ⟨contents, rfl, h⟩)

lemma lintLoop_append (env : Env) (k u : String) (cfg : Json) (xs ys : List String)
    (t : Nat) (fe : List (String × List ErrorDetail)) :
    lintLoop env k u cfg (xs ++ ys) t fe =
      match lintLoop env k u cfg xs t fe with
      | (evs, t1, fe1, some e) => (evs, t1, fe1, some e)
      | (evs, t1, fe1, none) =>
        match lintLoop env k u cfg ys t1 fe1 with
        | (revs, t2, fe2, errOpt) => (evs ++ revs, t2, fe2, errOpt) := by
  induction xs generalizing t fe with
  | nil => rfl
  | cons f rest ih =>
    simp only [List.cons_append, lintLoop]
    rcases hpf : processFile env k u cfg f with ⟨evs, step⟩
    cases step with
    | failed e => rfl
    | skipped =>
      simp only [List.append_eq] at *
      rw [ih]
      rcases h1 : lintLoop env k u cfg rest t fe with ⟨revs, t1, fe1, errOpt⟩
      cases errOpt with
      | some e => rfl
      | none =>
        rcases h2 : lintLoop env k u cfg ys t1 fe1 with ⟨revs2, t2, fe2, errOpt2⟩
        simp
    | linted errors =>
      simp only [List.append_eq] at *
      rw [ih]
      rcases h1 : lintLoop env k u cfg rest (t + errors.length)
        (if errors.length > 0 then recordSet fe f (detailsOf errors) else fe) with
        ⟨revs, t1, fe1, errOpt⟩
      cases errOpt with
      | some e => rfl
      | none =>
        rcases h2 : lintLoop env k u cfg ys t1 fe1 with ⟨revs2, t2, fe2, errOpt2⟩
        simp

lemma mem_lintLoop_events (env : Env) (k u : String) (cfg : Json) (files : List String)
    (t : Nat) (fe : List (String × List ErrorDetail)) (ev : Event)
    (h : ev ∈ (lintLoop env k u cfg files t fe).1) :
    ∃ f ∈ files, ev ∈ (processFile env k u cfg f).1 := by
  induction files generalizing t fe with
  | nil => simp [lintLoop] at h
  | cons f rest ih =>
    simp only [lintLoop] at h
    rcases hpf : processFile env k u cfg f with ⟨evs, step⟩
    rw [hpf] at h
    cases step with
    | failed e =>
      exact ⟨f, by simp, by rw [hpf]; exact h⟩
    | skipped =>
      dsimp only at h
      rcases h1 : lintLoop env k u cfg rest t fe with ⟨revs, t1, fe1, errOpt⟩
      rw [h1] at h
      simp only [List.mem_append] at h
      rcases h with h | h
      · exact ⟨f, by simp, by rw [hpf]; exact h⟩
      · rcases ih t fe (by rw [h1]; exact h) with ⟨g, hg, hev⟩
        exact ⟨g, by simp [hg], hev⟩
    | linted errors =>
      dsimp only at h
      rcases h1 : lintLoop env k u cfg rest (t + errors.length)
        (if errors.length > 0 then recordSet fe f (detailsOf errors) else fe) with
        ⟨revs, t1, fe1, errOpt⟩
      rw [h1] at h
      simp only [List.mem_append] at h
      rcases h with h | h
      · exact ⟨f, by simp, by rw [hpf]; exact h⟩
      · rcases ih _ _ (by rw [h1]; exact h) with ⟨g, hg, hev⟩
        exact ⟨g, by simp [hg], hev⟩

lemma lintLoop_none_of_ok (env : Env) (k u : String) (cfg : Json) (files : List String)
    (t : Nat) (fe : List (String × List ErrorDetail))
    (h : ∀ g ∈ files, stepFails (stepOf env k u cfg g) = false) :
    (lintLoop env k u cfg files t fe).2.2.2 = none := by
  induction files generalizing t fe with
  | nil => rfl
  | cons f rest ih =>
    simp only [lintLoop]
    rcases hpf : processFile env k u cfg f with ⟨evs, step⟩
    have hf := h f (by simp)
    rw [stepOf, hpf] at hf
    cases step with
    | failed e => simp [stepFails] at hf
    | skipped =>
      dsimp only
      rcases h1 : lintLoop env k u cfg rest t fe with ⟨revs, t1, fe1, errOpt⟩
      have := ih t fe (fun g hg => h g (by simp [hg]))
      rw [h1] at this
      simpa using this
    | linted errors =>
      dsimp only
      rcases h1 : lintLoop env k u cfg rest (t + errors.length)
        (if errors.length > 0 then recordSet fe f (detailsOf errors) else fe) with
        ⟨revs, t1, fe1, errOpt⟩
      have := ih (t + errors.length)
        (if errors.length > 0 then recordSet fe f (detailsOf errors) else fe)
        (fun g hg => h g (by simp [hg]))
      rw [h1] at this
      simpa using this

lemma mem_fileSection (f : String) (errs : List ErrorDetail) (ev : Event)
    (h : ev ∈ fileSection f errs) :
    ev = Event.sumHeading ("Errors in " ++ f ++ ":") 3 ∨
    ev = Event.sumList (errs.map detailLineText) ∨
    ev = Event.sumBreak ∨
    ∃ d ∈ errs, ev = annotFor f d := by
  unfold fileSection at h
  by_cases hl : errs.length > 0
  · simp only [hl, if_true] at h
    simp only [List.mem_append, List.mem_cons, List.mem_singleton, List.mem_map] at h
    rcases h with (h | h | h | h) | ⟨d, hd, hev⟩
    · exact Or.inl h
    · exact Or.inr (Or.inl h)
    · exact Or.inr (Or.inr (Or.inl h))
    · simp at h
    · exact Or.inr (Or.inr (Or.inr ⟨d, hd, hev.symm⟩))
  · simp [hl] at h

lemma mem_summaryEvents (fe : List (String × List ErrorDetail)) (t : Nat) (ev : Event)
    (h : ev ∈ summaryEvents fe t) :
    ev = Event.sumHeading "Accessibility Linting Results" 1 ∨
    ev = Event.sumBreak ∨
    ev = Event.sumRaw (sumFooterLine (t : Int)) ∨
    ev = Event.sumWrite ∨
    ev = Event.debug (debugFoundLine (t : Int)) ∨
    ∃ p ∈ fe, ev ∈ fileSection p.1 p.2 := by
  unfold summaryEvents at h
  simp only [List.mem_append, List.mem_cons, List.mem_singleton, List.mem_flatten,
    List.mem_map, List.not_mem_nil, or_false] at h
  rcases h with ((h | h) | ⟨l, ⟨p, hp, hl⟩, hev⟩) | (h | h | h | h)
  · exact Or.inl h
  · exact Or.inr (Or.inl h)
  · subst hl
    exact Or.inr (Or.inr (Or.inr (Or.inr (Or.inr ⟨p, hp, hev⟩))))
  · exact Or.inr (Or.inl h)
  · exact Or.inr (Or.inr (Or.inl h))
  · exact Or.inr (Or.inr (Or.inr (Or.inl h)))
  · exact Or.inr (Or.inr (Or.inr (Or.inr (Or.inl h))))

lemma loop_event_shape (env : Env) (k u : String) (cfg : Json) (files : List String)
    (t : Nat) (fe : List (String × List ErrorDetail)) (ev : Event)
    (h : ev ∈ (lintLoop env k u cfg files t fe).1) :
    (∃ f, ev = Event.fileRead f) ∨ (∃ m, ev = Event.debug m) ∨
      (∃ x y z, ev = Event.fetchPost x y z) := by
  rcases mem_lintLoop_events env k u cfg files t fe ev h with ⟨f, _, hev⟩
  rcases mem_processFile_events env k u cfg f ev hev with h1 | h1 | ⟨c, _, h1⟩
  · exact Or.inl ⟨f, h1⟩
  · exact Or.inr (Or.inl ⟨_, h1⟩)
  · exact Or.inr (Or.inr ⟨_, _, _, h1⟩)

lemma fileSection_annot (f : String) (errs : List ErrorDetail) (sev : Severity)
    (m : String) (p : AnnotProps) (h : Event.annot sev m p ∈ fileSection f errs) :
    sev = Severity.error ∧ ∃ d ∈ errs, Event.annot sev m p = annotFor f d := by
  rcases mem_fileSection f errs _ h with h1 | h1 | h1 | ⟨d, hd, h1⟩
  · simp at h1
  · simp at h1
  · simp at h1
  · refine ⟨?_, d, hd, h1⟩
    rw [annotFor] at h1
    exact (Event.annot.injEq _ _ _ _ _ _).mp h1 |>.1

lemma summary_annot_error (fe : List (String × List ErrorDetail)) (t : Nat)
    (sev : Severity) (m : String) (p : AnnotProps)
    (h : Event.annot sev m p ∈ summaryEvents fe t) : sev = Severity.error := by
  rcases mem_summaryEvents fe t _ h with h1 | h1 | h1 | h1 | h1 | ⟨q, _, h1⟩
  · simp at h1
  · simp at h1
  · simp at h1
  · simp at h1
  · simp at h1
  · exact (fileSection_annot q.1 q.2 sev m p h1).1

lemma summary_no_fetch (fe : List (String × List ErrorDetail)) (t : Nat)
    (x y : String) (z : RequestBody) (h : Event.fetchPost x y z ∈ summaryEvents fe t) :
    False := by
  rcases mem_summaryEvents fe t _ h with h1 | h1 | h1 | h1 | h1 | ⟨q, _, h1⟩
  · simp at h1
  · simp at h1
  · simp at h1
  · simp at h1
  · simp at h1
  · rcases mem_fileSection q.1 q.2 _ h1 with h2 | h2 | h2 | ⟨d, _, h2⟩
    · simp at h2
    · simp at h2
    · simp at h2
    · simp [annotFor] at h2

/-- Claim C3 (code of `src/linter.ts` as written): `lintFiles` has no
`allowWarnings` parameter and every annotation it ever emits, in every
run, has severity `error`; no warning-severity annotation exists. -/
theorem c3_every_annotation_is_error (env : Env) (files : List String)
    (k u : String) (cfg : Json) (sev : Severity) (m : String) (p : AnnotProps)
    (h : Event.annot sev m p ∈ (lintFiles env files k u cfg).1) :
    sev = Severity.error := by
  unfold lintFiles at h
  rcases hL : lintLoop env k u cfg files 0 [] with ⟨evs, t, fe, errOpt⟩
  rw [hL] at h
  cases errOpt with
  | some e =>
    dsimp only at h
    rcases loop_event_shape env k u cfg files 0 [] _ (by rw [hL]; exact h) with
      ⟨f, h1⟩ | ⟨m2, h1⟩ | ⟨x, y, z, h1⟩ <;> simp at h1
  | none =>
    dsimp only at h
    rcases List.mem_append.mp h with h1 | h1
    · rcases loop_event_shape env k u cfg files 0 [] _ (by rw [hL]; exact h1) with
        ⟨f, h2⟩ | ⟨m2, h2⟩ | ⟨x, y, z, h2⟩ <;> simp at h2
    · exact summary_annot_error fe t sev m p h1

/-- Claim C8: every outbound request body of a `lintFiles` run carries
the configuration object the caller passed in, so its JSON serialization
is byte-identical across all requests of the run. -/
theorem c8_config_passthrough (env : Env) (files : List String) (k u : String)
    (cfg : Json) (u2 a : String) (b : RequestBody)
    (h : Event.fetchPost u2 a b ∈ (lintFiles env files k u cfg).1) :
    b.config = cfg ∧ serializeJson b.config = serializeJson cfg := by
  have hb : b.config = cfg := by
    unfold lintFiles at h
    rcases hL : lintLoop env k u cfg files 0 [] with ⟨evs, t, fe, errOpt⟩
    rw [hL] at h
    have hloop : Event.fetchPost u2 a b ∈ evs → b.config = cfg := by
      intro h1
      rcases mem_lintLoop_events env k u cfg files 0 [] _ (by rw [hL]; exact h1) with
        ⟨f, _, hev⟩
      rcases mem_processFile_events env k u cfg f _ hev with h2 | h2 | ⟨c, _, h2⟩
      · simp at h2
      · simp at h2
      · rcases (Event.fetchPost.injEq _ _ _ _ _ _).mp h2 with ⟨_, _, hb2⟩
        rw [hb2]
    cases errOpt with
    | some e => exact hloop h
    | none =>
      dsimp only at h
      rcases List.mem_append.mp h with h1 | h1
      · exact hloop h1
      · exact absurd h1 (fun hh => summary_no_fetch fe t u2 a b hh)
  exact ⟨hb, by rw [hb]⟩

lemma loop_countP_zero (env : Env) (k u : String) (cfg : Json) (files : List String)
    (t : Nat) (fe : List (String × List ErrorDetail)) (p : Event → Bool)
    (hp : ∀ f, p (Event.fileRead f) = false)
    (hd : ∀ m, p (Event.debug m) = false)
    (hf : ∀ x y z, p (Event.fetchPost x y z) = false) :
    (lintLoop env k u cfg files t fe).1.countP p = 0 := by
  rw [List.countP_eq_zero]
  intro ev hev
  rcases loop_event_shape env k u cfg files t fe ev hev with ⟨f, h1⟩ | ⟨m, h1⟩ | ⟨x, y, z, h1⟩ <;>
    simp [h1, hp, hd, hf]

lemma fileSection_countP_zero (f : String) (errs : List ErrorDetail) (p : Event → Bool)
    (hh : ∀ text, p (Event.sumHeading text 3) = false)
    (hl : ∀ items, p (Event.sumList items) = false)
    (hb : p Event.sumBreak = false)
    (ha : ∀ sev m pr, p (Event.annot sev m pr) = false) :
    (fileSection f errs).countP p = 0 := by
  rw [List.countP_eq_zero]
  intro ev hev
  rcases mem_fileSection f errs ev hev with h1 | h1 | h1 | ⟨d, _, h1⟩ <;>
    simp [h1, hh, hl, hb, ha, annotFor]

lemma sections_countP_zero (fe : List (String × List ErrorDetail)) (p : Event → Bool)
    (hh : ∀ text, p (Event.sumHeading text 3) = false)
    (hl : ∀ items, p (Event.sumList items) = false)
    (hb : p Event.sumBreak = false)
    (ha : ∀ sev m pr, p (Event.annot sev m pr) = false) :
    ((fe.map (fun q => fileSection q.1 q.2)).flatten).countP p = 0 := by
  rw [List.countP_eq_zero]
  intro ev hev
  rcases List.mem_flatten.mp hev with ⟨l, hml, hev2⟩
  rcases List.mem_map.mp hml with ⟨q, _, hq⟩
  subst hq
  rcases mem_fileSection q.1 q.2 ev hev2 with h1 | h1 | h1 | ⟨d, _, h1⟩ <;>
    simp [h1, hh, hl, hb, ha, annotFor]

/-- Claim C10: a `lintFiles` call that completes without throwing — an
empty input list and all-skipped lists included — renders the run summary
exactly once: one `Accessibility Linting Results` heading, one summary
write, and one raw footer, the footer being `Found <total> accessibility
issue(s)`. -/
theorem c10_summary_rendered_once (env : Env) (files : List String) (k u : String)
    (cfg : Json) (n : Nat) (h : (lintFiles env files k u cfg).2 = Except.ok n) :
    (lintFiles env files k u cfg).1.countP isMainHeading = 1 ∧
    (lintFiles env files k u cfg).1.countP isSumWrite = 1 ∧
    (lintFiles env files k u cfg).1.filter isSumRaw =
      [Event.sumRaw (sumFooterLine (n : Int))] := by
  unfold lintFiles at h ⊢
  rcases hL : lintLoop env k u cfg files 0 [] with ⟨evs, t, fe, errOpt⟩
  rw [hL] at h
  cases errOpt with
  | some e => dsimp only at h; exact absurd h (by simp)
  | none =>
    dsimp only at h ⊢
    have ht : t = n := by simpa using h
    subst ht
    have hevs : ∀ p : Event → Bool,
        (∀ f, p (Event.fileRead f) = false) → (∀ m, p (Event.debug m) = false) →
        (∀ x y z, p (Event.fetchPost x y z) = false) → evs.countP p = 0 := by
      intro p h1 h2 h3
      have := loop_countP_zero env k u cfg files 0 [] p h1 h2 h3
      rw [hL] at this
      exact this
    refine ⟨?_, ?_, ?_⟩
    · rw [List.countP_append, hevs isMainHeading (by simp [isMainHeading])
        (by simp [isMainHeading]) (by simp [isMainHeading])]
      rw [summaryEvents, List.countP_append, List.countP_append]
      rw [sections_countP_zero fe isMainHeading (by simp [isMainHeading])
        (by simp [isMainHeading]) (by simp [isMainHeading]) (by simp [isMainHeading])]
      simp [isMainHeading]
    · rw [List.countP_append, hevs isSumWrite (by simp [isSumWrite])
        (by simp [isSumWrite]) (by simp [isSumWrite])]
      rw [summaryEvents, List.countP_append, List.countP_append]
      rw [sections_countP_zero fe isSumWrite (by simp [isSumWrite])
        (by simp [isSumWrite]) (by simp [isSumWrite]) (by simp [isSumWrite])]
      simp [isSumWrite]
    · rw [List.filter_append]
      have h0 : evs.filter isSumRaw = [] := by
        have := hevs isSumRaw (by simp [isSumRaw]) (by simp [isSumRaw]) (by simp [isSumRaw])
        rwa [List.countP_eq_length_filter, List.length_eq_zero] at this
      rw [h0]
      rw [summaryEvents, List.filter_append, List.filter_append]
      have hsec : ((fe.map (fun q => fileSection q.1 q.2)).flatten).filter isSumRaw = [] := by
        have := sections_countP_zero fe isSumRaw (by simp [isSumRaw]) (by simp [isSumRaw])
          (by simp [isSumRaw]) (by simp [isSumRaw])
        rwa [List.countP_eq_length_filter, List.length_eq_zero] at this
      rw [hsec]
      simp [isSumRaw]

lemma processFile_remote_error (env : Env) (k u : String) (cfg : Json) (f : String)
    (c s : String) (r : Response) (body : ParsedBody)
    (hread : (env f).read = ReadResult.readOk c) (hne : ¬ jsTrim c = "")
    (hhttp : (env f).http = HttpResult.resp r) (hok : r.ok = true)
    (hct : ctIncludesJson r.contentType = true) (hjson : r.json = JsonResult.jsonOk body)
    (herr : body.error = some s) (hs : s ≠ "") :
    processFile env k u cfg f =
      ([Event.fileRead f,
        Event.fetchPost (u ++ "/lint-source") k
          { source := c, filename := f, config := cfg }],
       FileStep.failed (JsErr.jsError s)) := by
  have hne2 : (jsTrim c == "") = false := by simpa using hne
  have hs2 : (s == "") = false := by simpa using hs
  unfold processFile responseStep
  simp [hread, hne2, hhttp, hok, hct, hjson, herr, hs2]

/-- Claim C6: when the parsed body for file `f` carries a truthy error
indicator `s` and no earlier file failed, `lintFiles` fails with exactly
that message, and the run is identical to the run whose input list ends
at `f` — no later file is read or posted. -/
theorem c6_error_indicator_aborts (env : Env) (k u : String) (cfg : Json)
    (pre post : List String) (f : String) (c s : String) (r : Response) (body : ParsedBody)
    (hpre : ∀ g ∈ pre, stepFails (stepOf env k u cfg g) = false)
    (hread : (env f).read = ReadResult.readOk c) (hne : ¬ jsTrim c = "")
    (hhttp : (env f).http = HttpResult.resp r) (hok : r.ok = true)
    (hct : ctIncludesJson r.contentType = true) (hjson : r.json = JsonResult.jsonOk body)
    (herr : body.error = some s) (hs : s ≠ "") :
    lintFiles env (pre ++ f :: post) k u cfg = lintFiles env (pre ++ [f]) k u cfg ∧
    (lintFiles env (pre ++ f :: post) k u cfg).2 = Except.error (JsErr.jsError s) := by
  have hstep := processFile_remote_error env k u cfg f c s r body hread hne hhttp hok
    hct hjson herr hs
  have hsingle : ∀ rest : List String, ∀ t fe,
      lintLoop env k u cfg (f :: rest) t fe =
        ([Event.fileRead f,
          Event.fetchPost (u ++ "/lint-source") k
            { source := c, filename := f, config := cfg }],
         t, fe, some (JsErr.jsError s)) := by
    intro rest t fe
    simp only [lintLoop, hstep]
  have hloopeq : lintLoop env k u cfg (pre ++ f :: post) 0 [] =
      lintLoop env k u cfg (pre ++ [f]) 0 [] := by
    rw [lintLoop_append, lintLoop_append]
    rcases h1 : lintLoop env k u cfg pre 0 [] with ⟨evs, t1, fe1, errOpt⟩
    cases errOpt with
    | some e => rfl
    | none =>
      dsimp only
      rw [hsingle post, hsingle []]
  have hfail : (lintLoop env k u cfg (pre ++ f :: post) 0 []).2.2.2 =
      some (JsErr.jsError s) := by
    rw [lintLoop_append]
    rcases h1 : lintLoop env k u cfg pre 0 [] with ⟨evs, t1, fe1, errOpt⟩
    cases errOpt with
    | some e =>
      have := lintLoop_none_of_ok env k u cfg pre 0 [] hpre
      rw [h1] at this
      simp at this
    | none =>
      dsimp only
      rw [hsingle post]
  constructor
  · unfold lintFiles
    rw [hloopeq]
  · unfold lintFiles
    rcases h2 : lintLoop env k u cfg (pre ++ f :: post) 0 [] with ⟨evs, t2, fe2, errOpt2⟩
    rw [h2] at hfail
    simp only at hfail
    rw [hfail]

lemma processFile_skip (env : Env) (k u : String) (cfg : Json) (f c : String)
    (hread : (env f).read = ReadResult.readOk c) (hempty : jsTrim c = "") :
    processFile env k u cfg f =
      ([Event.fileRead f, Event.debug ("Skipping empty file " ++ f)], FileStep.skipped) := by
  unfold processFile
  simp [hread, hempty]

/-- Claim C7: a file whose read contents trim to the empty string is
skipped: the run's outcome equals the outcome without that file in the
list, the diagnostic `Skipping empty file <name>` is logged, and no
request whose body names that file is ever posted. -/
theorem c7_empty_file_skipped (env : Env) (k u : String) (cfg : Json)
    (pre post : List String) (f c : String)
    (hpre : ∀ g ∈ pre, stepFails (stepOf env k u cfg g) = false)
    (hread : (env f).read = ReadResult.readOk c) (hempty : jsTrim c = "") :
    (lintFiles env (pre ++ f :: post) k u cfg).2 = (lintFiles env (pre ++ post) k u cfg).2 ∧
    Event.debug ("Skipping empty file " ++ f) ∈ (lintFiles env (pre ++ f :: post) k u cfg).1 ∧
    ∀ x y b, Event.fetchPost x y b ∈ (lintFiles env (pre ++ f :: post) k u cfg).1 →
      b.filename ≠ f := by
  have hstep := processFile_skip env k u cfg f c hread hempty
  have hcons : ∀ t fe, lintLoop env k u cfg (f :: post) t fe =
      ([Event.fileRead f, Event.debug ("Skipping empty file " ++ f)]
         ++ (lintLoop env k u cfg post t fe).1,
       (lintLoop env k u cfg post t fe).2) := by
    intro t fe
    simp only [lintLoop, hstep]
  have hpreNone := lintLoop_none_of_ok env k u cfg pre 0 [] hpre
  refine ⟨?_, ?_, ?_⟩
  · unfold lintFiles
    rw [lintLoop_append, lintLoop_append]
    rcases h1 : lintLoop env k u cfg pre 0 [] with ⟨evs1, t1, fe1, errOpt1⟩
    cases errOpt1 with
    | some e => rfl
    | none =>
      dsimp only
      rw [hcons t1 fe1]
      rcases h2 : lintLoop env k u cfg post t1 fe1 with ⟨evs2, t2, fe2, errOpt2⟩
      cases errOpt2 <;> rfl
  · unfold lintFiles
    rw [lintLoop_append]
    rcases h1 : lintLoop env k u cfg pre 0 [] with ⟨evs1, t1, fe1, errOpt1⟩
    cases errOpt1 with
    | some e =>
      rw [h1] at hpreNone
      simp at hpreNone
    | none =>
      dsimp only
      rw [hcons t1 fe1]
      rcases h2 : lintLoop env k u cfg post t1 fe1 with ⟨evs2, t2, fe2, errOpt2⟩
      cases errOpt2 <;> simp
  · intro x y b hmem hbf
    have hfetch : Event.fetchPost x y b ∈ (lintLoop env k u cfg (pre ++ f :: post) 0 []).1 := by
      unfold lintFiles at hmem
      rcases hL : lintLoop env k u cfg (pre ++ f :: post) 0 [] with ⟨evs, t, fe, errOpt⟩
      rw [hL] at hmem
      cases errOpt with
      | some e => exact hmem
      | none =>
        dsimp only at hmem ⊢
        rcases List.mem_append.mp hmem with h1 | h1
        · exact h1
        · exact absurd h1 (fun hh => summary_no_fetch fe t x y b hh)
    rcases mem_lintLoop_events env k u cfg _ 0 [] _ hfetch with ⟨g, hg, hev⟩
    rcases mem_processFile_events env k u cfg g _ hev with h2 | h2 | ⟨c2, _, h2⟩
    · simp at h2
    · simp at h2
    · rcases (Event.fetchPost.injEq _ _ _ _ _ _).mp h2 with ⟨_, _, hb2⟩
      have hgf : g = f := by rw [hb2] at hbf; simpa using hbf
      subst hgf
      rw [hstep] at hev
      simp at hev

/-- Claim C9: a parsed body whose `error` field is the empty string is
not treated as a remote-reported failure (empty string is falsy): the
step falls through to `report.errors` and, the report being absent,
fails with the TypeError of reading a property of `undefined` — not with
a thrown `Error` carrying the indicator. -/
theorem c9_empty_error_indicator (env : Env) (k u : String) (cfg : Json)
    (f c : String) (r : Response) (body : ParsedBody)
    (hread : (env f).read = ReadResult.readOk c) (hne : ¬ jsTrim c = "")
    (hhttp : (env f).http = HttpResult.resp r) (hok : r.ok = true)
    (hct : ctIncludesJson r.contentType = true) (hjson : r.json = JsonResult.jsonOk body)
    (herr : body.error = some "") (hrep : body.report = none) :
    stepOf env k u cfg f =
      FileStep.failed (JsErr.typeError "Cannot read properties of undefined (reading 'errors')") ∧
    ∀ m : String, stepOf env k u cfg f ≠ FileStep.failed (JsErr.jsError m) := by
  have hne2 : (jsTrim c == "") = false := by simpa using hne
  have hmain : stepOf env k u cfg f =
      FileStep.failed (JsErr.typeError "Cannot read properties of undefined (reading 'errors')") := by
    unfold stepOf processFile responseStep reportStep
    simp [hread, hne2, hhttp, hok, hct, hjson, herr, hrep]
  refine ⟨hmain, ?_⟩
  intro m hm
  rw [hmain] at hm
  simp at hm

lemma recordSet_append (fe : List (String × List ErrorDetail)) (k : String)
    (v : List ErrorDetail) (h : ∀ p ∈ fe, p.1 ≠ k) :
    recordSet fe k v = fe ++ [(k, v)] := by
  induction fe with
  | nil => rfl
  | cons p rest ih =>
    rcases p with ⟨k0, v0⟩
    have hk0 : k0 ≠ k := h (k0, v0) (by simp)
    simp only [recordSet]
    rw [if_neg (by simpa using hk0)]
    rw [ih (fun q hq => h q (by simp [hq]))]
    simp

lemma lintLoop_fileErrors (env : Env) (k u : String) (cfg : Json) (files : List String)
    (t : Nat) (fe0 : List (String × List ErrorDetail)) (hnd : files.Nodup)
    (hdisj : ∀ f ∈ files, ∀ p ∈ fe0, p.1 ≠ f)
    (hnone : (lintLoop env k u cfg files t fe0).2.2.2 = none) :
    (lintLoop env k u cfg files t fe0).2.2.1 =
      fe0 ++ files.filterMap (fileErrorsEntry env k u cfg) := by
  induction files generalizing t fe0 with
  | nil => simp [lintLoop]
  | cons f rest ih =>
    have hstep : stepOf env k u cfg f = (processFile env k u cfg f).2 := rfl
    simp only [lintLoop] at hnone ⊢
    rcases hpf : processFile env k u cfg f with ⟨evs, step⟩
    rw [hpf] at hnone
    have hsf : stepOf env k u cfg f = step := by rw [hstep, hpf]
    cases step with
    | failed e => simp at hnone
    | skipped =>
      dsimp only at hnone ⊢
      rw [List.filterMap_cons]
      simp only [fileErrorsEntry, hsf]
      exact ih t fe0 ((by simpa using hnd : f ∉ rest ∧ rest.Nodup).2)
        (fun g hg p hp => hdisj g (by simp [hg]) p hp) hnone
    | linted errors =>
      dsimp only at hnone ⊢
      rw [List.filterMap_cons]
      simp only [fileErrorsEntry, hsf]
      by_cases hl : errors.length > 0
      · rw [if_pos hl]
        rw [if_pos hl] at hnone ⊢
        have hfe1 : recordSet fe0 f (detailsOf errors) = fe0 ++ [(f, detailsOf errors)] :=
          recordSet_append fe0 f (detailsOf errors)
            (fun p hp => hdisj f (by simp) p hp)
        rw [hfe1] at hnone ⊢
        have hnd2 : rest.Nodup := ((by simpa using hnd : f ∉ rest ∧ rest.Nodup)).2
        have hfnotin : f ∉ rest := ((by simpa using hnd : f ∉ rest ∧ rest.Nodup)).1
        have hdisj2 : ∀ g ∈ rest, ∀ p ∈ fe0 ++ [(f, detailsOf errors)], p.1 ≠ g := by
          intro g hg p hp
          rcases List.mem_append.mp hp with hp1 | hp1
          · exact hdisj g (by simp [hg]) p hp1
          · have hp2 : p = (f, detailsOf errors) := by simpa using hp1
            intro hc
            apply hfnotin
            have hfg : f = g := by rw [hp2] at hc; simpa using hc
            rwa [hfg]
        rw [ih (t + errors.length) (fe0 ++ [(f, detailsOf errors)]) hnd2 hdisj2 hnone]
        simp
      · rw [if_neg hl]
        rw [if_neg hl] at hnone ⊢
        exact ih (t + errors.length) fe0 ((by simpa using hnd : f ∉ rest ∧ rest.Nodup)).2
          (fun g hg p hp => hdisj g (by simp [hg]) p hp) hnone

lemma annotEvents_fileSection (f : String) (errs : List ErrorDetail) :
    annotEvents (fileSection f errs) = errs.map (annotFor f) := by
  unfold annotEvents fileSection
  by_cases hl : errs.length > 0
  · rw [if_pos hl, List.filter_append]
    have h1 : [Event.sumHeading ("Errors in " ++ f ++ ":") 3,
        Event.sumList (errs.map detailLineText), Event.sumBreak].filter isAnnotEvent = [] := by
      simp [isAnnotEvent]
    have h2 : (errs.map (annotFor f)).filter isAnnotEvent = errs.map (annotFor f) := by
      rw [List.filter_eq_self]
      intro ev hev
      rcases List.mem_map.mp hev with ⟨d, _, hd⟩
      rw [← hd]
      simp [annotFor, isAnnotEvent]
    rw [h1, h2, List.nil_append]
  · have : errs = [] := by
      rcases errs with _ | ⟨d, ds⟩
      · rfl
      · simp at hl
    simp [this]

lemma annotEvents_sections (fe : List (String × List ErrorDetail)) :
    annotEvents ((fe.map (fun q => fileSection q.1 q.2)).flatten) =
      (fe.map (fun q => q.2.map (annotFor q.1))).flatten := by
  induction fe with
  | nil => rfl
  | cons q rest ih =>
    simp only [List.map_cons, List.flatten_cons]
    unfold annotEvents at ih ⊢
    rw [List.filter_append, ih]
    rw [show (fileSection q.1 q.2).filter isAnnotEvent = annotEvents (fileSection q.1 q.2) from rfl]
    rw [annotEvents_fileSection]

lemma annotEvents_summary (fe : List (String × List ErrorDetail)) (t : Nat) :
    annotEvents (summaryEvents fe t) = (fe.map (fun q => q.2.map (annotFor q.1))).flatten := by
  unfold summaryEvents
  unfold annotEvents
  rw [List.filter_append, List.filter_append]
  have h1 : [Event.sumHeading "Accessibility Linting Results" 1,
      Event.sumBreak].filter isAnnotEvent = [] := by simp [isAnnotEvent]
  have h3 : [Event.sumBreak, Event.sumRaw (sumFooterLine (t : Int)), Event.sumWrite,
      Event.debug (debugFoundLine (t : Int))].filter isAnnotEvent = [] := by
    simp [isAnnotEvent]
  rw [h1, h3]
  rw [show ((fe.map (fun q => fileSection q.1 q.2)).flatten).filter isAnnotEvent =
    annotEvents ((fe.map (fun q => fileSection q.1 q.2)).flatten) from rfl]
  rw [annotEvents_sections]
  simp

/-- Claim C2 (amended): in a run in which no file fails and filenames are
distinct, `lintFiles` emits exactly one annotation per reported finding,
in file order: message `<ruleId> - <description>` (no filename/line
prefix and no help URL), severity `error`, properties `{ file, startLine
= the finding's line, startColumn, endColumn, title: 'Axe Linter' }`
(and no end-line field). -/
theorem c2_one_annotation_per_finding (env : Env) (files : List String)
    (k u : String) (cfg : Json) (n : Nat) (hnd : files.Nodup)
    (hok : (lintFiles env files k u cfg).2 = Except.ok n) :
    annotEvents (lintFiles env files k u cfg).1 =
      (files.map (fun f =>
        (detailsOf (reportedErrors env k u cfg f)).map (annotFor f))).flatten := by
  unfold lintFiles at hok ⊢
  rcases hL : lintLoop env k u cfg files 0 [] with ⟨evs, t, fe, errOpt⟩
  rw [hL] at hok
  cases errOpt with
  | some e => simp at hok
  | none =>
    dsimp only at hok ⊢
    have hnone : (lintLoop env k u cfg files 0 []).2.2.2 = none := by rw [hL]
    have hfe : fe = [] ++ files.filterMap (fileErrorsEntry env k u cfg) := by
      have := lintLoop_fileErrors env k u cfg files 0 [] hnd (by simp) hnone
      rw [hL] at this
      exact this
    unfold annotEvents
    rw [List.filter_append]
    have hevs0 : evs.filter isAnnotEvent = [] := by
      rw [List.filter_eq_nil_iff]
      intro ev hev
      rcases loop_event_shape env k u cfg files 0 [] ev (by rw [hL]; exact hev) with
        ⟨f2, h1⟩ | ⟨m2, h1⟩ | ⟨x, y, z, h1⟩ <;> simp [h1, isAnnotEvent]
    rw [hevs0, List.nil_append]
    rw [show (summaryEvents fe t).filter isAnnotEvent = annotEvents (summaryEvents fe t) from rfl]
    rw [annotEvents_summary, hfe, List.nil_append]
    clear hok hL hnone hfe hevs0
    induction files with
    | nil => rfl
    | cons f rest ih =>
      rw [List.filterMap_cons, List.map_cons, List.flatten_cons]
      have hrest := ih ((by simpa using hnd : f ∉ rest ∧ rest.Nodup)).2
      rcases hstep : stepOf env k u cfg f with e2 | _ | errs
      · rw [show fileErrorsEntry env k u cfg f = none by
          unfold fileErrorsEntry; rw [hstep]]
        rw [show reportedErrors env k u cfg f = [] by
          unfold reportedErrors; rw [hstep]]
        simp only [detailsOf, List.map_nil, List.nil_append]
        exact hrest
      · rw [show fileErrorsEntry env k u cfg f = none by
          unfold fileErrorsEntry; rw [hstep]]
        rw [show reportedErrors env k u cfg f = [] by
          unfold reportedErrors; rw [hstep]]
        simp only [detailsOf, List.map_nil, List.nil_append]
        exact hrest
      · rw [show reportedErrors env k u cfg f = errs by
          unfold reportedErrors; rw [hstep]]
        by_cases hl : errs.length > 0
        · rw [show fileErrorsEntry env k u cfg f = some (f, detailsOf errs) by
            unfold fileErrorsEntry; rw [hstep]; simp [hl]]
          rw [List.map_cons, List.flatten_cons]
          rw [hrest]
        · have : errs = [] := by
            rcases errs with _ | ⟨d, ds⟩
            · rfl
            · simp at hl
          subst this
          rw [show fileErrorsEntry env k u cfg f = none by
            unfold fileErrorsEntry; rw [hstep]; simp]
          simp only [detailsOf, List.map_nil, List.nil_append]
          exact hrest

/-! ## Counterexample and witnesses at concrete inputs -/

/-- Claim C2 (counterexample): for a finding with a help URL, the one
annotation `lintFiles` emits carries the message
`test-rule-1 - Test error 1`; the message the claim prescribes —
filename/line prefix plus help-URL suffix — is not emitted. -/
theorem c2_counterexample :
    annotMessages (lintFiles wEnv ["test.js"] "test-api-key" "https://test-linter.com"
        (Json.obj [])).1
      = ["test-rule-1 - Test error 1"] ∧
    "test.js:1 - test-rule-1 - Test error 1\nhttps://test-help-url-1.com" ∉
      annotMessages (lintFiles wEnv ["test.js"] "test-api-key" "https://test-linter.com"
        (Json.obj [])).1 := by
  constructor <;> decide

/-- The full event trace of the one-file sample run. -/
lemma wTrace :
    (lintFiles wEnv ["test.js"] "test-api-key" "https://test-linter.com" (Json.obj [])).1 =
      [Event.fileRead "test.js",
       Event.fetchPost "https://test-linter.com/lint-source" "test-api-key"
         { source := "<div>test</div>", filename := "test.js", config := Json.obj [] },
       Event.sumHeading "Accessibility Linting Results" 1, Event.sumBreak,
       Event.sumHeading "Errors in test.js:" 3,
       Event.sumList ["Line 1: test-rule-1 - Test error 1"], Event.sumBreak,
       Event.annot Severity.error "test-rule-1 - Test error 1"
         { file := "test.js", startLine := 1, startColumn := 1, endColumn := 10,
           title := "Axe Linter" },
       Event.sumBreak, Event.sumRaw "Found 1 accessibility issue", Event.sumWrite,
       Event.debug "Found 1 error"] := rfl

/-- Witness for C2: the amended annotation law at a concrete two-file run. -/
theorem c2_witness :
    annotEvents (lintFiles wEnv ["test.js", "empty.js"] "test-api-key"
        "https://test-linter.com" (Json.obj [])).1 =
      (["test.js", "empty.js"].map (fun f =>
        (detailsOf (reportedErrors wEnv "test-api-key" "https://test-linter.com"
          (Json.obj []) f)).map (annotFor f))).flatten :=
  c2_one_annotation_per_finding wEnv ["test.js", "empty.js"] "test-api-key"
    "https://test-linter.com" (Json.obj []) 1 (by decide) rfl

/-- Witness for C3: the sample run's annotation, looked up in the trace,
has severity `error`. -/
theorem c3_witness : Severity.error = Severity.error :=
  c3_every_annotation_is_error wEnv ["test.js"] "test-api-key" "https://test-linter.com"
    (Json.obj []) Severity.error "test-rule-1 - Test error 1"
    { file := "test.js", startLine := 1, startColumn := 1, endColumn := 10,
      title := "Axe Linter" }
    (by rw [wTrace]; simp)

/-- Witness for C6: a run whose first file's body reports `API Error`
equals the run without the later file, and fails with that message. -/
theorem c6_witness :
    lintFiles wEnv ["error.js", "later.js"] "k" "u" (Json.obj [])
      = lintFiles wEnv ["error.js"] "k" "u" (Json.obj []) ∧
    (lintFiles wEnv ["error.js", "later.js"] "k" "u" (Json.obj [])).2
      = Except.error (JsErr.jsError "API Error") :=
  c6_error_indicator_aborts wEnv "k" "u" (Json.obj []) [] ["later.js"] "error.js"
    "<h1>x</h1>" "API Error"
    { ok := true, status := 200, contentType := some "application/json",
      json := .jsonOk { error := some "API Error", report := none } }
    { error := some "API Error", report := none }
    (by simp) rfl (by decide) rfl rfl (by decide) rfl rfl (by decide)

/-- Witness for C7: skipping the whitespace-only file leaves the run's
outcome unchanged, logs the skip, and posts nothing for that file. -/
theorem c7_witness :
    (lintFiles wEnv ["empty.js", "later.js"] "k" "u" (Json.obj [])).2
      = (lintFiles wEnv ["later.js"] "k" "u" (Json.obj [])).2 ∧
    Event.debug ("Skipping empty file " ++ "empty.js")
      ∈ (lintFiles wEnv ["empty.js", "later.js"] "k" "u" (Json.obj [])).1 ∧
    ∀ x y b, Event.fetchPost x y b
        ∈ (lintFiles wEnv ["empty.js", "later.js"] "k" "u" (Json.obj [])).1 →
      b.filename ≠ "empty.js" :=
  c7_empty_file_skipped wEnv "k" "u" (Json.obj []) [] ["later.js"] "empty.js" "   "
    (by simp) rfl (by decide)

/-- Witness for C8: the request body of the sample run carries the
configuration passed in. -/
theorem c8_witness :
    RequestBody.config
        { source := "<div>test</div>", filename := "test.js", config := Json.obj [] }
      = Json.obj [] ∧
    serializeJson (RequestBody.config
        { source := "<div>test</div>", filename := "test.js", config := Json.obj [] })
      = serializeJson (Json.obj []) :=
  c8_config_passthrough wEnv ["test.js"] "test-api-key" "https://test-linter.com"
    (Json.obj []) "https://test-linter.com/lint-source" "test-api-key"
    { source := "<div>test</div>", filename := "test.js", config := Json.obj [] }
    (by rw [wTrace]; simp)

/-- Witness for C9: the `{"error": ""}` body with no report fails with
the TypeError, not with a thrown indicator. -/
theorem c9_witness :
    stepOf wEnv "k" "u" (Json.obj []) "bad.js"
      = FileStep.failed
          (JsErr.typeError "Cannot read properties of undefined (reading 'errors')") ∧
    ∀ m : String, stepOf wEnv "k" "u" (Json.obj []) "bad.js"
      ≠ FileStep.failed (JsErr.jsError m) :=
  c9_empty_error_indicator wEnv "k" "u" (Json.obj []) "bad.js" "<p>x</p>"
    { ok := true, status := 200, contentType := some "application/json",
      json := .jsonOk { error := some "", report := none } }
    { error := some "", report := none }
    rfl (by decide) rfl rfl (by decide) rfl rfl rfl

/-- Witness for C10: the empty-input run still renders the summary
exactly once, with a zero-count plural footer. -/
theorem c10_witness :
    (lintFiles wEnv ([] : List String) "k" "u" (Json.obj [])).1.countP isMainHeading = 1 ∧
    (lintFiles wEnv ([] : List String) "k" "u" (Json.obj [])).1.countP isSumWrite = 1 ∧
    (lintFiles wEnv ([] : List String) "k" "u" (Json.obj [])).1.filter isSumRaw =
      [Event.sumRaw (sumFooterLine ((0 : Nat) : Int))] :=
  c10_summary_rendered_once wEnv [] "k" "u" (Json.obj []) 0 rfl
